import Mathlib

/-!
Shallow embedding of `src/Modules/Debug/Debug.cpp` (STM32-libraries Debug
module), with both `DEBUG_PRINTF_ENABLED` and `USE_FREERTOS` in effect.

Modelling conventions:
* Text is `List Char` (the C code works on NUL-terminated byte strings via
  `strlen`/`memcpy`; a `List Char` models the bytes before the terminator).
* The shared buffer `messageBuffer_` together with `currentBufferLocation_`
  is modelled as the list of the valid bytes `buffer[0..fill)`, so
  `fill = buffer.length`.
* `MAX_DEBUG_TEXT_LENGTH` (defined in `Debug.h`) is the parameter `cap`.
* A call to `LSPC::TransmitAsync(Debug, ptr, len)` is recorded as its payload
  byte list; the tag is the constant `MessageTypesToPC::Debug` and is omitted.
  Each operation returns the updated state and the list of transmit payloads
  in call order.
* `com_` being a non-null pointer is the flag `comAssigned`; the result of
  `Connected()` at call time is the parameter `connected`.
* Lock acquire/release (`xSemaphoreTake`/`Give`) brackets each operation and
  has no effect on the sequential functional state, so it is not modelled;
  `locksCreated`/`tasksSpawned` count `xSemaphoreCreateBinary`/`xTaskCreate`
  calls made by `AssignDebugCOM` (lock creation is modelled as succeeding).
-/

namespace DebugRelay

/-- The mutable state of the `Debug` singleton (`debugHandle`):
`com_` (as a non-null flag), `messageBuffer_`/`currentBufferLocation_`
(as the valid prefix `buffer`), plus counters of RTOS resources created
by `AssignDebugCOM`. -/
structure DebugState where
  comAssigned : Bool
  buffer : List Char
  locksCreated : Nat
  tasksSpawned : Nat
deriving Repr, DecidableEq

/-- The chunk-splitting loop of `Debug::Message` (Debug.cpp lines 112-119):
while bytes remain, send `min remaining cap` bytes of the remainder and
advance.  `fuel` bounds the number of iterations; the loop variable
`stringLength` shrinks by at least one per iteration whenever `0 < cap`, so
`fuel = text.length` is exact then (`splitChunksAux_fuel`).  The source loop
diverges when `MAX_DEBUG_TEXT_LENGTH = 0`; that configuration is impossible
(the macro is a positive constant), and every theorem below assumes
`0 < cap`. -/
def splitChunksAux (cap : Nat) : Nat → List Char → List (List Char)
  | 0, _ => []
  | fuel + 1, text =>
    if text.isEmpty then []
    else text.take cap :: splitChunksAux cap fuel (text.drop cap)

/-- The chunk sequence transmitted by the over-length branch of
`Debug::Message` for a message `text`. -/
def splitChunks (cap : Nat) (text : List Char) : List (List Char) :=
  splitChunksAux cap text.length text

/-- `Debug::Message(const char * msg)` (Debug.cpp lines 96-134): the
append/split engine, under the no-wrap assumption `msg.length < 2^16` (the
source stores `strlen(msg)` in a `uint16_t`; `MessageU16` below is the
bit-exact translation and `MessageU16_eq_message` proves the two agree on
that domain).  Returns the updated state and the transmit payloads issued
during the call, in order. -/
def Message (cap : Nat) (connected : Bool) (st : DebugState) (msg : List Char) :
    DebugState × List (List Char) :=
  if st.comAssigned = false then (st, [])
  else if connected = false then (st, [])
  else
    let stringLength := msg.length
    if cap < stringLength then
      -- message too long to fit in one package: flush the buffered package
      -- (unconditionally, even when empty), then send the chunks
      ({ st with buffer := [] }, st.buffer :: splitChunks cap msg)
    else if cap - st.buffer.length < stringLength then
      -- does not fit behind the current fill: flush, then buffer the message
      ({ st with buffer := msg }, [st.buffer])
    else
      -- fits: append behind the current fill
      ({ st with buffer := st.buffer ++ msg }, [])

/-- `Debug::Message(const char * msg)` (Debug.cpp lines 96-134) with the
exact `uint16_t` semantics of line 106: `stringLength = strlen(msg) mod 2^16`,
and every later use of the message — the chunk loop's byte count and the
`memcpy` size — covers exactly the first `stringLength` bytes at `msg`. -/
def MessageU16 (cap : Nat) (connected : Bool) (st : DebugState) (msg : List Char) :
    DebugState × List (List Char) :=
  if st.comAssigned = false then (st, [])
  else if connected = false then (st, [])
  else
    let stringLength := msg.length % 65536
    if cap < stringLength then
      ({ st with buffer := [] },
        st.buffer :: splitChunks cap (msg.take stringLength))
    else if cap - st.buffer.length < stringLength then
      ({ st with buffer := msg.take stringLength }, [st.buffer])
    else
      ({ st with buffer := st.buffer ++ msg.take stringLength }, [])

/-- One iteration of `Debug::PackageGeneratorThread` (Debug.cpp lines 82-91)
after the `osDelay(1)`: under the mutex, transmit and clear the buffer if it
is non-empty. -/
def PackageGeneratorIter (st : DebugState) : DebugState × List (List Char) :=
  if 0 < st.buffer.length then ({ st with buffer := [] }, [st.buffer])
  else (st, [])

/-- A sequence of `Debug::Message` calls, accumulating transmits in order. -/
def appendAll (cap : Nat) (connected : Bool) (st : DebugState) :
    List (List Char) → DebugState × List (List Char)
  | [] => (st, [])
  | t :: ts =>
    ((appendAll cap connected (Message cap connected st t).1 ts).1,
      (Message cap connected st t).2 ++
        (appendAll cap connected (Message cap connected st t).1 ts).2)

/-- `Debug::AssignDebugCOM(void * com)` (Debug.cpp lines 48-74), with
`DEBUG_PRINTF_ENABLED` and `USE_FREERTOS` in effect: `com_` is stored first;
if `com` is null, "LSPC object does not exist" is reported and the call
returns with the rest untouched; otherwise the fill and buffer are reset,
`xSemaphoreCreateBinary` is called (modelled as succeeding; on failure the
source reports and returns before the task spawn) and
`xTaskCreate(PackageGeneratorThread, ...)` is called — on every invocation,
there is no first-binding guard in the source. -/
def AssignDebugCOM (st : DebugState) (comNonNull : Bool) : DebugState :=
  if comNonNull = false then { st with comAssigned := false }
  else
    { comAssigned := true, buffer := [],
      locksCreated := st.locksCreated + 1, tasksSpawned := st.tasksSpawned + 1 }

/-- Outcome of one run of the `Debug::Debug()` constructor body
(Debug.cpp lines 34-42). -/
structure CtorResult where
  returnsControl : Bool
  diagnosticReported : Bool
  enteredFatal : Bool
  handleCreated : Bool
deriving Repr, DecidableEq

/-- Modelled from the spec: the `ERROR` reporting macro invoked at
Debug.cpp line 37 is defined in `Debug.h`, which is not among the sources;
per the spec (§3 Lifecycle, §7), duplicate construction of the process-wide
state "is reported as a non-fatal diagnostic and otherwise ignored (not
escalated to fatal)", so the report is modelled as a tier-(a) diagnostic
that returns control.  `Debug::Debug()` itself (in the sources): if
`handleCreated` is already set, report and return, leaving it set;
otherwise set `handleCreated`. -/
def DebugCtor (handleCreated : Bool) : CtorResult :=
  if handleCreated then
    { returnsControl := true, diagnosticReported := true, enteredFatal := false,
      handleCreated := handleCreated }
  else
    { returnsControl := true, diagnosticReported := false, enteredFatal := false,
      handleCreated := true }

/-- Observable events of the `Debug::Error` loop body (Debug.cpp
lines 211-215): one report through `Debug::Message(type, functionName, msg)`
(the message-composition path) and one `osDelay(500)`. -/
inductive FatalEvent where
  | report (type functionName msg : List Char)
  | sleep (ticks : Nat)
deriving Repr, DecidableEq

/-- `Debug::Error(type, functionName, msg)` (Debug.cpp lines 207-216) after
the `BKPT` trap, observed for `n` scheduler slots of its calling task:
returns whether control has returned to the caller, and the events emitted
so far.  The loop guard is the constant `1` of `while (1)`; control could
leave the loop only if that constant were zero. -/
def fatalRun (type functionName msg : List Char) : Nat → Bool × List FatalEvent
  | 0 => (false, [])
  | n + 1 =>
    if (fatalRun type functionName msg n).1 then fatalRun type functionName msg n
    else if (1 : Nat) = 0 then (true, (fatalRun type functionName msg n).2)
    else
      (false, (fatalRun type functionName msg n).2 ++
        [FatalEvent.report type functionName msg, FatalEvent.sleep 500])

/-- `Debug::Message(const char * type, const char * functionName,
const char * msg)` (Debug.cpp lines 160-168): the ordered call sequence
`Message(type); Message("["); Message(functionName); Message("] ");
Message(msg); Message("\n")`. -/
def MessageTyped (cap : Nat) (connected : Bool) (st : DebugState)
    (type functionName msg : List Char) : DebugState × List (List Char) :=
  appendAll cap connected st [type, ['['], functionName, [']', ' '], msg, ['\n']]

/-- `Debug::Message(std::string type, const char * functionName,
std::string msg)` (Debug.cpp lines 170-177): the ordered call sequence
`Message("["); Message(functionName); Message("] "); Message(msg.c_str());
Message("\n")` — the `type` parameter is never emitted by the source body
(hence unused below, exactly as in Debug.cpp lines 170-177). -/
def MessageTypedStr (cap : Nat) (connected : Bool) (st : DebugState)
    (type functionName msg : List Char) : DebugState × List (List Char) :=
  appendAll cap connected st [['['], functionName, [']', ' '], msg, ['\n']]

/-- Modelled from the C library contract of `vsnprintf(buf, n, fmt, args)`:
at most `n - 1` characters of the fully rendered formatted output are
written, followed by a NUL terminator, so the delivered string is
`rendered.take (n - 1)` where `rendered` is the untruncated rendering. -/
def vsnprintfTrunc (n : Nat) (rendered : List Char) : List Char :=
  rendered.take (n - 1)

/-- `Debug::printf(msgFmt, ...)` (Debug.cpp lines 184-205): after the null
and connectivity checks, allocate a `MAX_DEBUG_TEXT_LENGTH`-byte scratch
buffer (`mallocOk` is whether `pvPortMalloc` succeeded; on failure the call
returns), render into it with `vsnprintf`, and delegate to `Message`. -/
def printf (cap : Nat) (connected : Bool) (st : DebugState)
    (rendered : List Char) (mallocOk : Bool) : DebugState × List (List Char) :=
  if st.comAssigned = false then (st, [])
  else if connected = false then (st, [])
  else if mallocOk = false then (st, [])
  else Message cap connected st (vsnprintfTrunc cap rendered)

theorem splitChunksAux_fuel (cap : Nat) (hc : 0 < cap) :
    ∀ fuel t, t.length ≤ fuel →
      splitChunksAux cap fuel t = splitChunksAux cap t.length t := by
  intro fuel
  induction fuel using Nat.strong_induction_on with
  | _ fuel ih =>
    intro t ht
    cases fuel with
    | zero =>
      have h0 : t = [] := List.eq_nil_of_length_eq_zero (Nat.le_zero.mp ht)
      subst h0; rfl
    | succ f =>
      cases t with
      | nil => simp [splitChunksAux]
      | cons c cs =>
        have hdrop : ((c :: cs).drop cap).length ≤ f := by
          simp only [List.length_drop, List.length_cons]
          simp only [List.length_cons] at ht
          omega
        have hdrop2 : ((c :: cs).drop cap).length ≤ cs.length := by
          simp only [List.length_drop, List.length_cons]
          omega
        have h1 := ih f (Nat.lt_succ_self f) _ hdrop
        have h2 := ih cs.length (by simp only [List.length_cons] at ht; omega) _ hdrop2
        simp only [List.length_cons, splitChunksAux, List.isEmpty_cons,
          Bool.false_eq_true, if_false]
        rw [h1, h2]

theorem splitChunks_nil (cap : Nat) : splitChunks cap [] = [] := rfl

theorem splitChunks_cons (cap : Nat) (hc : 0 < cap) (t : List Char) (ht : t ≠ []) :
    splitChunks cap t = t.take cap :: splitChunks cap (t.drop cap) := by
  cases t with
  | nil => exact absurd rfl ht
  | cons c cs =>
    have hdrop2 : ((c :: cs).drop cap).length ≤ cs.length := by
      simp only [List.length_drop, List.length_cons]
      omega
    show splitChunksAux cap ((c :: cs).length) (c :: cs) = _
    simp only [List.length_cons, splitChunksAux, List.isEmpty_cons,
      Bool.false_eq_true, if_false]
    rw [splitChunksAux_fuel cap hc cs.length _ hdrop2]
    rfl

/-- The chunks reassemble the original message exactly. -/
theorem splitChunks_flatten (cap : Nat) (hc : 0 < cap) (t : List Char) :
    (splitChunks cap t).flatten = t := by
  have H : ∀ (n : Nat) (t : List Char), t.length ≤ n → (splitChunks cap t).flatten = t := by
    intro n
    induction n with
    | zero =>
      intro t ht
      have h0 : t = [] := List.eq_nil_of_length_eq_zero (Nat.le_zero.mp ht)
      subst h0; rfl
    | succ n ih =>
      intro t ht
      cases t with
      | nil => rfl
      | cons c cs =>
        rw [splitChunks_cons cap hc _ (by simp)]
        have hlen : ((c :: cs).drop cap).length ≤ n := by
          simp only [List.length_drop, List.length_cons]
          simp only [List.length_cons] at ht
          omega
        simp only [List.flatten_cons, ih _ hlen]
        exact List.take_append_drop cap (c :: cs)
  exact H t.length t le_rfl

/-- Every chunk except the last has size exactly `cap`, and the last has size
`t.length % cap`, or `cap` when `cap` divides `t.length`. -/
theorem splitChunks_sizes (cap : Nat) (hc : 0 < cap) :
    ∀ t : List Char, t ≠ [] →
      (∀ c ∈ (splitChunks cap t).dropLast, c.length = cap) ∧
      (splitChunks cap t).getLast?.map List.length =
        some (if t.length % cap = 0 then cap else t.length % cap) := by
  have H : ∀ (n : Nat) (t : List Char), t.length ≤ n → t ≠ [] →
      (∀ c ∈ (splitChunks cap t).dropLast, c.length = cap) ∧
      (splitChunks cap t).getLast?.map List.length =
        some (if t.length % cap = 0 then cap else t.length % cap) := by
    intro n
    induction n with
    | zero =>
      intro t ht hne
      exact absurd (List.eq_nil_of_length_eq_zero (Nat.le_zero.mp ht)) hne
    | succ n ih =>
      intro t ht hne
      rw [splitChunks_cons cap hc _ hne]
      by_cases hrest : t.drop cap = []
      · have hle : t.length ≤ cap := by
          have h := congrArg List.length hrest
          simp only [List.length_drop, List.length_nil] at h
          omega
        rw [hrest, splitChunks_nil]
        refine ⟨by simp, ?_⟩
        have htake : t.take cap = t := List.take_of_length_le hle
        have hpos : 0 < t.length := List.length_pos.mpr hne
        rcases Nat.lt_or_ge t.length cap with hlt | hge
        · have hmod : t.length % cap = t.length := Nat.mod_eq_of_lt hlt
          have hne0 : t.length ≠ 0 := by omega
          simp [htake, hmod, hne0]
        · have heq : t.length = cap := Nat.le_antisymm hle hge
          simp [htake, heq, Nat.mod_self]
      · have hgt : cap < t.length := by
          by_contra hle
          exact hrest (List.drop_of_length_le (by omega))
        have hlen : (t.drop cap).length ≤ n := by
          simp only [List.length_drop]
          omega
        obtain ⟨ihall, ihlast⟩ := ih (t.drop cap) hlen hrest
        have hchunksne : splitChunks cap (t.drop cap) ≠ [] := by
          rw [splitChunks_cons cap hc _ hrest]
          exact List.cons_ne_nil _ _
        constructor
        · intro c hcmem
          rw [List.dropLast_cons_of_ne_nil hchunksne] at hcmem
          rcases List.mem_cons.mp hcmem with h | h
          · subst h
            simp only [List.length_take]
            omega
          · exact ihall c h
        · obtain ⟨x, xs, hx⟩ := List.exists_cons_of_ne_nil hchunksne
          rw [hx, List.getLast?_cons_cons, ← hx, ihlast]
          have hmod : t.length % cap = (t.length - cap) % cap :=
            Nat.mod_eq_sub_mod (by omega)
          simp only [List.length_drop]
          rw [hmod]
  intro t
  exact H t.length t le_rfl

/-- The number of chunks is `⌈t.length / cap⌉`. -/
theorem splitChunks_length (cap : Nat) (hc : 0 < cap) (t : List Char) (ht : t ≠ []) :
    (splitChunks cap t).length = (t.length + cap - 1) / cap := by
  have H : ∀ (n : Nat) (t : List Char), t.length ≤ n → t ≠ [] →
      (splitChunks cap t).length = (t.length + cap - 1) / cap := by
    intro n
    induction n with
    | zero =>
      intro t ht hne
      exact absurd (List.eq_nil_of_length_eq_zero (Nat.le_zero.mp ht)) hne
    | succ n ih =>
      intro t ht hne
      rw [splitChunks_cons cap hc _ hne]
      by_cases hrest : t.drop cap = []
      · have hle : t.length ≤ cap := by
          have h := congrArg List.length hrest
          simp only [List.length_drop, List.length_nil] at h
          omega
        have hpos : 0 < t.length := List.length_pos.mpr hne
        rw [hrest, splitChunks_nil]
        simp only [List.length_cons, List.length_nil]
        exact (Nat.div_eq_of_lt_le (by omega) (by omega)).symm
      · have hgt : cap < t.length := by
          by_contra hle
          exact hrest (List.drop_of_length_le (by omega))
        have hlen : (t.drop cap).length ≤ n := by
          simp only [List.length_drop]
          omega
        rw [List.length_cons, ih _ hlen hrest]
        simp only [List.length_drop]
        have : t.length - cap + cap - 1 + cap = t.length + cap - 1 := by omega
        rw [← Nat.add_div_right _ hc, this]
  exact H t.length t le_rfl ht

example :
    Message 4 true ⟨true, [], 0, 0⟩ "HELLOWORLD".toList =
      (⟨true, [], 0, 0⟩, [[], "HELL".toList, "OWOR".toList, "LD".toList]) := by
  decide

example :
    appendAll 4 true ⟨true, [], 0, 0⟩ ["ab".toList, "cd".toList] =
      (⟨true, "abcd".toList, 0, 0⟩, []) := by
  decide

/-- On messages shorter than `2^16` the `uint16_t` length cannot wrap, and
the exact model coincides with the no-wrap one. -/
theorem MessageU16_eq_message (cap : Nat) (connected : Bool) (st : DebugState)
    (msg : List Char) (h : msg.length < 65536) :
    MessageU16 cap connected st msg = Message cap connected st msg := by
  have hsl : msg.length % 65536 = msg.length := Nat.mod_eq_of_lt h
  simp [MessageU16, Message, hsl, List.take_length]

/-- When the `uint16_t`-wrapped length fits behind the current fill,
`MessageU16` buffers the first `stringLength` bytes and transmits nothing. -/
theorem MessageU16_fits (cap : Nat) (st : DebugState) (t : List Char)
    (hcom : st.comAssigned = true)
    (hfits : st.buffer.length + t.length % 65536 ≤ cap) :
    MessageU16 cap true st t =
      ({ st with buffer := st.buffer ++ t.take (t.length % 65536) }, []) := by
  have h1 : ¬ cap < t.length % 65536 := by omega
  have h2 : ¬ cap - st.buffer.length < t.length % 65536 := by omega
  simp [MessageU16, hcom, h1, h2]

/-- When the message fits behind the current fill, `Debug::Message` only
appends it to the buffer and transmits nothing. -/
theorem Message_fits (cap : Nat) (st : DebugState) (t : List Char)
    (hcom : st.comAssigned = true) (hfits : st.buffer.length + t.length ≤ cap) :
    Message cap true st t = ({ st with buffer := st.buffer ++ t }, []) := by
  have h1 : ¬ cap < t.length := by omega
  have h2 : ¬ cap - st.buffer.length < t.length := by omega
  simp [Message, hcom, h1, h2]

/-- A sequence of fitting messages is buffered in order with no transmits. -/
theorem appendAll_buffered (cap : Nat) :
    ∀ (ts : List (List Char)) (st : DebugState),
      st.comAssigned = true →
      st.buffer.length + (ts.map List.length).sum ≤ cap →
      appendAll cap true st ts = ({ st with buffer := st.buffer ++ ts.flatten }, []) := by
  intro ts
  induction ts with
  | nil =>
    intro st hcom hsum
    simp [appendAll]
  | cons t ts ih =>
    intro st hcom hsum
    simp only [List.map_cons, List.sum_cons] at hsum
    have hfits : st.buffer.length + t.length ≤ cap := by omega
    simp only [appendAll]
    rw [Message_fits cap st t hcom hfits]
    have hsum' : ({ st with buffer := st.buffer ++ t } : DebugState).buffer.length +
        (ts.map List.length).sum ≤ cap := by
      simp only [List.length_append]
      omega
    rw [ih { st with buffer := st.buffer ++ t } hcom hsum']
    simp [List.append_assoc]

/-- C1 counterexample: for a message of length `65536 > capacity = 4` on an
empty buffer, the `uint16_t` `stringLength` of Debug.cpp line 106 wraps to 0,
so the source takes the buffering branch and transmits nothing — there are no
chunks at all, and the concatenation of the transmitted chunks is empty, not
the text. -/
theorem message_overlong_chunk_shape_false_at_wrap :
    4 < (List.replicate 65536 'A').length ∧
    (MessageU16 4 true ⟨true, [], 0, 0⟩ (List.replicate 65536 'A')).2 = [] ∧
    ¬ ((MessageU16 4 true ⟨true, [], 0, 0⟩ (List.replicate 65536 'A')).2).flatten =
        List.replicate 65536 'A' := by
  have hlen : (List.replicate 65536 'A').length = 65536 :=
    List.length_replicate 65536 'A'
  have hsl : (List.replicate 65536 'A').length % 65536 = 0 := by rw [hlen]
  have hrun : MessageU16 4 true ⟨true, [], 0, 0⟩ (List.replicate 65536 'A') =
      (⟨true, [], 0, 0⟩, []) := by
    rw [MessageU16_fits 4 ⟨true, [], 0, 0⟩ (List.replicate 65536 'A') rfl
      (by rw [hsl]; decide)]
    rw [hsl, List.take_zero, List.append_nil]
  refine ⟨by rw [hlen]; decide, by rw [hrun], ?_⟩
  rw [hrun]
  intro h
  have hcontra := congrArg List.length h
  rw [List.length_replicate] at hcontra
  simp at hcontra

/-- C1 amended: for a single `append(text)` with
`capacity < length(text) < 2^16` (so the `uint16_t` length cannot wrap), the
chunks transmitted for `text` (everything after the initial buffer flush) are
sent in order; every chunk has size `capacity` except the last, whose size is
`length(text) mod capacity` (or `capacity` when evenly divisible), and the
chunks concatenate back to `text` exactly. -/
theorem message_overlong_chunk_shape (cap : Nat) (st : DebugState) (msg : List Char)
    (hcom : st.comAssigned = true) (hc : 0 < cap) (hlen : cap < msg.length)
    (hw : msg.length < 65536) :
    (MessageU16 cap true st msg).2 = st.buffer :: splitChunks cap msg ∧
    (splitChunks cap msg).flatten = msg ∧
    (∀ c ∈ (splitChunks cap msg).dropLast, c.length = cap) ∧
    (splitChunks cap msg).getLast?.map List.length =
      some (if msg.length % cap = 0 then cap else msg.length % cap) := by
  have hne : msg ≠ [] := by
    intro h
    rw [h] at hlen
    simp at hlen
  obtain ⟨hall, hlast⟩ := splitChunks_sizes cap hc msg hne
  refine ⟨?_, splitChunks_flatten cap hc msg, hall, hlast⟩
  rw [MessageU16_eq_message cap true st msg hw]
  simp [Message, hcom, hlen]

/-- Witness for `message_overlong_chunk_shape` at `cap = 4`,
`msg = "HELLOWORLD"`, buffer `"AB"`. -/
theorem message_overlong_chunk_shape_witness :
    (MessageU16 4 true ⟨true, ['A', 'B'], 0, 0⟩ "HELLOWORLD".toList).2 =
      ['A', 'B'] :: splitChunks 4 "HELLOWORLD".toList ∧
    (splitChunks 4 "HELLOWORLD".toList).flatten = "HELLOWORLD".toList ∧
    (∀ c ∈ (splitChunks 4 "HELLOWORLD".toList).dropLast, c.length = 4) ∧
    (splitChunks 4 "HELLOWORLD".toList).getLast?.map List.length =
      some (if "HELLOWORLD".toList.length % 4 = 0 then 4
            else "HELLOWORLD".toList.length % 4) :=
  message_overlong_chunk_shape 4 ⟨true, ['A', 'B'], 0, 0⟩ "HELLOWORLD".toList rfl
    (by decide) (by decide) (by decide)

/-- C2: starting from an empty buffer with a bound, connected channel, any
sequence of `append` calls of combined length ≤ capacity leaves the buffer
holding the concatenation of the texts in call order, with
`fill = ` combined length, and causes no transmit (no intervening flush). -/
theorem append_sequence_concat (cap : Nat) (st : DebugState) (ts : List (List Char))
    (hcom : st.comAssigned = true) (hbuf : st.buffer = [])
    (hsum : (ts.map List.length).sum ≤ cap) :
    (appendAll cap true st ts).1.buffer = ts.flatten ∧
    (appendAll cap true st ts).1.buffer.length = (ts.map List.length).sum ∧
    (appendAll cap true st ts).2 = [] := by
  have h := appendAll_buffered cap ts st hcom (by rw [hbuf]; simpa)
  rw [h]
  refine ⟨by simp [hbuf], ?_, rfl⟩
  simp [hbuf, List.length_flatten]

/-- Witness for `append_sequence_concat` at `cap = 4`,
`ts = ["ab", "cd"]`. -/
theorem append_sequence_concat_witness :
    (appendAll 4 true ⟨true, [], 0, 0⟩ ["ab".toList, "cd".toList]).1.buffer =
      ["ab".toList, "cd".toList].flatten ∧
    (appendAll 4 true ⟨true, [], 0, 0⟩ ["ab".toList, "cd".toList]).1.buffer.length =
      (["ab".toList, "cd".toList].map List.length).sum ∧
    (appendAll 4 true ⟨true, [], 0, 0⟩ ["ab".toList, "cd".toList]).2 = [] :=
  append_sequence_concat 4 ⟨true, [], 0, 0⟩ ["ab".toList, "cd".toList] rfl rfl
    (by decide)

/-- C3 counterexample, two independent defects.  (i) With `capacity = 4` and
an empty buffer, `append("HELLOWORLD")` issues 4 `TransmitAsync` calls, not
the claimed `ceil(10/4) = 3`: Debug.cpp line 109 flushes the buffered package
unconditionally, so a zero-length flush transmit precedes the three chunks.
(ii) For a message of length `65537 > capacity` on an empty buffer, the
`uint16_t` length of line 106 wraps to 1, so the source performs 0 transmit
calls (not `ceil(65537/4)`) and leaves 1 byte buffered. -/
theorem message_overlong_exact_three_transmits_false :
    (MessageU16 4 true ⟨true, [], 0, 0⟩ "HELLOWORLD".toList).2 =
      [[], "HELL".toList, "OWOR".toList, "LD".toList] ∧
    (MessageU16 4 true ⟨true, [], 0, 0⟩ "HELLOWORLD".toList).2.length = 4 ∧
    ¬ (MessageU16 4 true ⟨true, [], 0, 0⟩ "HELLOWORLD".toList).2 =
        ["HELL".toList, "OWOR".toList, "LD".toList] ∧
    4 < (List.replicate 65537 'B').length ∧
    (MessageU16 4 true ⟨true, [], 0, 0⟩ (List.replicate 65537 'B')).2 = [] ∧
    (MessageU16 4 true ⟨true, [], 0, 0⟩ (List.replicate 65537 'B')).1.buffer =
      ['B'] := by
  have hlen : (List.replicate 65537 'B').length = 65537 :=
    List.length_replicate 65537 'B'
  have hsl : (List.replicate 65537 'B').length % 65536 = 1 := by rw [hlen]
  have hrun : MessageU16 4 true ⟨true, [], 0, 0⟩ (List.replicate 65537 'B') =
      (⟨true, ['B'], 0, 0⟩, []) := by
    rw [MessageU16_fits 4 ⟨true, [], 0, 0⟩ (List.replicate 65537 'B') rfl
      (by rw [hsl]; decide)]
    rw [hsl, List.take_replicate, show (1 ⊓ 65537 : Nat) = 1 by norm_num,
      List.replicate_one, List.nil_append]
  refine ⟨by decide, by decide, by decide, by rw [hlen]; decide,
    by rw [hrun], by rw [hrun]⟩

/-- C3 amended: for `append(text)` with `capacity < length(text) < 2^16` on
an empty buffer, exactly `1 + ceil(length(text)/capacity)` transmit calls
occur — an initial flush transmit of the (empty) buffer followed by the
chunks — and nothing is left buffered. -/
theorem message_overlong_empty_buffer_transmits (cap : Nat) (st : DebugState)
    (msg : List Char) (hcom : st.comAssigned = true) (hbuf : st.buffer = [])
    (hc : 0 < cap) (hlen : cap < msg.length) (hw : msg.length < 65536) :
    (MessageU16 cap true st msg).2 = [] :: splitChunks cap msg ∧
    (MessageU16 cap true st msg).2.length = 1 + (msg.length + cap - 1) / cap ∧
    (MessageU16 cap true st msg).1.buffer = [] := by
  have hne : msg ≠ [] := by
    intro h
    rw [h] at hlen
    simp at hlen
  rw [MessageU16_eq_message cap true st msg hw]
  have hout : (Message cap true st msg).2 = st.buffer :: splitChunks cap msg := by
    simp [Message, hcom, hlen]
  refine ⟨by rw [hout, hbuf], ?_, by simp [Message, hcom, hlen]⟩
  rw [hout, List.length_cons, splitChunks_length cap hc msg hne]
  omega

/-- Witness for `message_overlong_empty_buffer_transmits` at `cap = 4`,
`msg = "HELLOWORLD"`. -/
theorem message_overlong_empty_buffer_transmits_witness :
    (MessageU16 4 true ⟨true, [], 0, 0⟩ "HELLOWORLD".toList).2 =
      [] :: splitChunks 4 "HELLOWORLD".toList ∧
    (MessageU16 4 true ⟨true, [], 0, 0⟩ "HELLOWORLD".toList).2.length =
      1 + ("HELLOWORLD".toList.length + 4 - 1) / 4 ∧
    (MessageU16 4 true ⟨true, [], 0, 0⟩ "HELLOWORLD".toList).1.buffer = [] :=
  message_overlong_empty_buffer_transmits 4 ⟨true, [], 0, 0⟩ "HELLOWORLD".toList
    rfl rfl (by decide) (by decide) (by decide)

/-- C4: if no channel is bound (`com_` null) or the bound channel is not
connected at call time, `Debug::Message` performs zero transmit calls and
leaves the state (buffer and fill) unchanged — a silent no-op with no error
signalled. -/
theorem message_disconnected_noop (cap : Nat) (connected : Bool) (st : DebugState)
    (msg : List Char) (h : st.comAssigned = false ∨ connected = false) :
    Message cap connected st msg = (st, []) := by
  rcases h with h | h
  · simp [Message, h]
  · by_cases hcom : st.comAssigned = false <;> simp [Message, h, hcom]

/-- Witness for `message_disconnected_noop`: disconnected channel, non-empty
buffer. -/
theorem message_disconnected_noop_witness :
    Message 4 false ⟨true, ['a'], 0, 0⟩ "xy".toList = (⟨true, ['a'], 0, 0⟩, []) :=
  message_disconnected_noop 4 false ⟨true, ['a'], 0, 0⟩ "xy".toList (Or.inr rfl)

/-- C8: the invariant `0 ≤ fill ≤ capacity` is preserved by every operation:
any `Debug::Message` call — under the exact `uint16_t` length semantics, for
every message, whichever branch runs — and any iteration of the background
flush task keep `fill ≤ MAX_DEBUG_TEXT_LENGTH` (`0 ≤ fill` holds by the
`Nat` representation). -/
theorem fill_le_capacity_invariant (cap : Nat) (connected : Bool) (st : DebugState)
    (msg : List Char) (hfill : st.buffer.length ≤ cap) :
    (MessageU16 cap connected st msg).1.buffer.length ≤ cap ∧
    (PackageGeneratorIter st).1.buffer.length ≤ cap := by
  constructor
  · by_cases h1 : st.comAssigned = false
    · simpa [MessageU16, h1] using hfill
    · by_cases h2 : connected = false
      · simpa [MessageU16, h1, h2] using hfill
      · by_cases h3 : cap < msg.length % 65536
        · simp [MessageU16, h1, h2, h3]
        · by_cases h4 : cap - st.buffer.length < msg.length % 65536
          · have hbuf : (MessageU16 cap connected st msg).1.buffer =
                msg.take (msg.length % 65536) := by
              simp [MessageU16, h1, h2, h3, h4]
            rw [hbuf, List.length_take]
            omega
          · have hbuf : (MessageU16 cap connected st msg).1.buffer =
                st.buffer ++ msg.take (msg.length % 65536) := by
              simp [MessageU16, h1, h2, h3, h4]
            rw [hbuf, List.length_append, List.length_take]
            omega
  · by_cases h : 0 < st.buffer.length
    · simp [PackageGeneratorIter, h]
    · simpa [PackageGeneratorIter, h] using hfill

/-- Witness for `fill_le_capacity_invariant` at `cap = 4`, a flush-inducing
append. -/
theorem fill_le_capacity_invariant_witness :
    (MessageU16 4 true ⟨true, "abc".toList, 0, 0⟩ "de".toList).1.buffer.length ≤ 4 ∧
    (PackageGeneratorIter ⟨true, "abc".toList, 0, 0⟩).1.buffer.length ≤ 4 :=
  fill_le_capacity_invariant 4 true ⟨true, "abc".toList, 0, 0⟩ "de".toList
    (by decide)

/-- C5 counterexample: starting from the initial state, a second successful
`AssignDebugCOM` call creates a second binary semaphore and spawns a second
transmitter task (Debug.cpp lines 63 and 71 run unconditionally on every
call), contradicting "a second call creates no new lock and spawns no
additional task". -/
theorem assign_second_call_creates_resources :
    (AssignDebugCOM (AssignDebugCOM ⟨false, [], 0, 0⟩ true) true).locksCreated = 2 ∧
    (AssignDebugCOM (AssignDebugCOM ⟨false, [], 0, 0⟩ true) true).tasksSpawned = 2 ∧
    ¬ (AssignDebugCOM (AssignDebugCOM ⟨false, [], 0, 0⟩ true) true).locksCreated =
        (AssignDebugCOM ⟨false, [], 0, 0⟩ true).locksCreated ∧
    ¬ (AssignDebugCOM (AssignDebugCOM ⟨false, [], 0, 0⟩ true) true).tasksSpawned =
        (AssignDebugCOM ⟨false, [], 0, 0⟩ true).tasksSpawned := by
  decide

/-- C5 amended: every `AssignDebugCOM` call with a non-null channel stores
the reference, resets `fill` to 0 and zeroes the buffer, and also creates a
fresh mutual-exclusion lock and spawns a fresh background flush task — on
the second and every later binding just as on the first (the source has no
first-binding-only guard). -/
theorem assign_every_call_effect (st : DebugState) :
    AssignDebugCOM st true =
      { comAssigned := true, buffer := [],
        locksCreated := st.locksCreated + 1,
        tasksSpawned := st.tasksSpawned + 1 } := by
  simp [AssignDebugCOM]

/-- C6: a second construction attempt of the process-wide `Debug` state is
reported as a non-fatal diagnostic and otherwise ignored: control returns,
`handleCreated` stays set, and the fatal path is not entered (the first
construction, by contrast, reports nothing and sets `handleCreated`). -/
theorem ctor_duplicate_nonfatal :
    DebugCtor true =
      { returnsControl := true, diagnosticReported := true, enteredFatal := false,
        handleCreated := true } ∧
    DebugCtor false =
      { returnsControl := true, diagnosticReported := false, enteredFatal := false,
        handleCreated := true } := by
  decide

/-- C7: for every input, `Debug::Error` never returns control to its caller:
after any number `n` of iterations of its `while (1)` loop control has not
returned, and the events emitted are exactly `n` repetitions of (one report
of `type`, `functionName`, `msg` through the message-composition path,
followed by `osDelay(500)`). -/
theorem error_never_returns (type functionName msg : List Char) (n : Nat) :
    (fatalRun type functionName msg n).1 = false ∧
    (fatalRun type functionName msg n).2 =
      (List.replicate n
        [FatalEvent.report type functionName msg, FatalEvent.sleep 500]).flatten := by
  induction n with
  | zero => exact ⟨rfl, rfl⟩
  | succ n ih =>
    obtain ⟨h1, h2⟩ := ih
    refine ⟨by simp [fatalRun, h1], ?_⟩
    rw [List.replicate_succ', List.flatten_append]
    simp [fatalRun, h1, h2]

/-- C9: the `std::string` overload `Debug::Message(std::string type,
const char * functionName, std::string msg)` drops its `type` argument: at
`cap = 32`, empty buffer, connected, with `type = "ERR"`,
`functionName = "fn"`, `msg = "m"`, the source buffers `"[fn] m\n"`, whereas
the `const char *` overload buffers `"ERR[fn] m\n"` as the claim describes
for both. -/
theorem messageTypedStr_drops_type :
    (MessageTypedStr 32 true ⟨true, [], 0, 0⟩
        "ERR".toList "fn".toList "m".toList).1.buffer = "[fn] m\n".toList ∧
    (MessageTyped 32 true ⟨true, [], 0, 0⟩
        "ERR".toList "fn".toList "m".toList).1.buffer = "ERR[fn] m\n".toList ∧
    ¬ (MessageTypedStr 32 true ⟨true, [], 0, 0⟩
        "ERR".toList "fn".toList "m".toList).1.buffer = "ERR[fn] m\n".toList := by
  decide

/-- C10: the text `Debug::printf` delegates to `append` has length at most
`capacity − 1` (the `vsnprintf` scratch buffer holds `capacity` bytes), so
the over-capacity chunking guard `stringLength > MAX_DEBUG_TEXT_LENGTH` is
never true for it — a `printf` call causes at most one (flush) transmit —
and formatted output longer than `capacity − 1` characters is truncated to
its first `capacity − 1` characters. -/
theorem printf_never_chunks (cap : Nat) (connected mallocOk : Bool)
    (st : DebugState) (rendered : List Char) (hc : 0 < cap) :
    (vsnprintfTrunc cap rendered).length ≤ cap - 1 ∧
    ¬ cap < (vsnprintfTrunc cap rendered).length ∧
    vsnprintfTrunc cap rendered = rendered.take (cap - 1) ∧
    (printf cap connected st rendered mallocOk).2.length ≤ 1 := by
  have hlen : (vsnprintfTrunc cap rendered).length ≤ cap - 1 := by
    simp only [vsnprintfTrunc, List.length_take]
    omega
  refine ⟨hlen, by omega, rfl, ?_⟩
  by_cases h1 : st.comAssigned = false
  · simp [printf, h1]
  · by_cases h2 : connected = false
    · simp [printf, h1, h2]
    · by_cases h3 : mallocOk = false
      · simp [printf, h1, h2, h3]
      · have h4 : ¬ cap < (vsnprintfTrunc cap rendered).length := by omega
        by_cases h5 : cap - st.buffer.length < (vsnprintfTrunc cap rendered).length
        · simp [printf, Message, h1, h2, h3, h4, h5]
        · simp [printf, Message, h1, h2, h3, h4, h5]

/-- Witness for `printf_never_chunks` at `cap = 4`, an 11-character
rendering against a partly filled buffer. -/
theorem printf_never_chunks_witness :
    (vsnprintfTrunc 4 "HELLOWORLDS".toList).length ≤ 4 - 1 ∧
    ¬ 4 < (vsnprintfTrunc 4 "HELLOWORLDS".toList).length ∧
    vsnprintfTrunc 4 "HELLOWORLDS".toList = "HELLOWORLDS".toList.take (4 - 1) ∧
    (printf 4 true ⟨true, "ab".toList, 0, 0⟩ "HELLOWORLDS".toList true).2.length ≤ 1 :=
  printf_never_chunks 4 true true ⟨true, "ab".toList, 0, 0⟩ "HELLOWORLDS".toList
    (by decide)

end DebugRelay
